import Mathlib

/-!
Verification development for the MCPFolderOrganizer repository.

Strings from the Python source are embedded as `List Char` (called `Name`
below), so that every operation on them is executable and decidable.
Rational numbers stand in for Python floats: every confidence value the
program manipulates on the paths studied here is produced by exact
arithmetic on small values, where float and rational semantics agree.
External effects (the two HTTP oracles and the interactive prompt) are
modelled as opaque response functions carried in a `Config` record, one
per environment-variable-guarded stage of the fallback chain in
`src/services/file_analysis_service.py`.
-/

namespace MCPFolder

/-- Characters of a Python string. -/
abbrev Name := List Char

/-- Lowercase a string, as Python `str.lower` (ASCII range suffices here). -/
def lower (s : Name) : Name := s.map Char.toLower

/-- The reserved characters of `src/utils/validate.py` (`invalid_chars = r'<>:"/\|?*'`). -/
def invalidChars : List Char := ['<', '>', ':', '"', '/', '\\', '|', '?', '*']

/-- One step of `name.replace(char, '_')` from `sanitize_folder_name`. -/
def replaceChar (c : Char) (s : Name) : Name :=
  s.map fun x => if x = c then '_' else x

/-- The replacement loop `for char in invalid_chars: name = name.replace(char, '_')`. -/
def replaceInvalid (s : Name) : Name :=
  invalidChars.foldl (fun acc c => replaceChar c acc) s

/-- Membership test for Python `strip('. ')`. -/
def isStripChar (c : Char) : Bool :=
  c = '.' || c = ' '

/-- Python `name.strip('. ')`: remove leading and trailing dots and spaces. -/
def stripDots (s : Name) : Name :=
  ((s.dropWhile isStripChar).reverse.dropWhile isStripChar).reverse

/-- The truncation `if len(name) > 200: name = name[:200]` of `sanitize_folder_name`. -/
def truncate200 (s : Name) : Name :=
  if 200 < s.length then s.take 200 else s

/-- The fallback result `"folder"` of `sanitize_folder_name`. -/
def folderFallback : Name := (r"folder").data

/-- `sanitize_folder_name` from `src/utils/validate.py`: replace each reserved
character by an underscore, strip leading/trailing dots and spaces, truncate
to 200 characters, and fall back to `"folder"` when empty. -/
def sanitize_folder_name (s : Name) : Name :=
  if truncate200 (stripDots (replaceInvalid s)) = [] then folderFallback
  else truncate200 (stripDots (replaceInvalid s))

/-- Pointwise description of the replacement loop: a reserved character
becomes an underscore and every other character is kept. -/
def canonChar (x : Char) : Char :=
  if x ∈ invalidChars then '_' else x

/-- The sentinel category of `_ai_suggest_category`. -/
def uncategorized : Name := (r"Uncategorized").data

/-- A parsed oracle reply `(category, confidence, subcategory, suggested_name)`,
the tuple shape returned by `_external_llm_classify` and `_openai_classify`. -/
abbrev Reply := Name × Rat × Option Name × Option Name

/-- The process environment and the behaviour of the external collaborators.
Each oracle stage of `_ai_suggest_category` is guarded by an environment
variable and performs I/O; here the guard is an `Option`/`Bool` field and the
I/O outcome (including every transport or parse failure, returned as `None`
by the Python helpers) is an opaque response function. -/
structure Config where
  external_llm_url : Option Name
  external_llm : Name → Name → Name → Option Reply
  openai_api_key : Option Name
  openai : Name → Name → Name → Option Reply
  interactive_mode : Bool
  interactive_classify : Name → Name → Name → Option Reply
  interactive_subcategory : Name → Option Name

/-- `FileMetadata` from `src/models/file_models.py`. -/
structure FileMetadata where
  original_name : Name
  suggested_name : Name
  file_path : Name
  file_size : Nat
  file_type : Name
  suggested_category : Name
  confidence_score : Rat
  content_preview : Name
  tags : List Name
deriving DecidableEq

/-- `FolderOrganization` from `src/models/file_models.py`. -/
structure FolderOrganization where
  category : Name
  files : List FileMetadata
  suggested_folder_name : Name
deriving DecidableEq

/-- A structure-view entry of `_build_structure`: category, file count and up
to five example suggested names. -/
abbrev StructEntry := Name × Nat × List Name

/-- `OrganizationResult` from `src/models/file_models.py`; the rendered
`suggested_structure` dict is an insertion-ordered association list. -/
structure OrganizationResult where
  source_folder : Name
  total_files : Nat
  organized_folders : List FolderOrganization
  unorganized_files : List FileMetadata
  suggested_structure : List (Name × StructEntry)
deriving DecidableEq

/-- The error taxonomy of `src/utils/errors.py`. -/
inductive MCPError where
  | invalidPath
  | fileAccess
  | analysisError
  | organizationError
deriving DecidableEq

/-- An on-disk regular file as the analyzer sees it: name, byte size and
readable text content. -/
structure FileEntry where
  name : Name
  size : Nat
  content : Name
deriving DecidableEq

/-- The state of the folder handed to `analyze_folder`: its path, whether it
exists and is a directory (checked by `validate_path`), whether `iterdir`
succeeds (`_get_all_files` raises `FileAccessError` otherwise), and its
regular files. -/
structure Folder where
  path : Name
  path_exists : Bool
  is_dir : Bool
  enum_ok : Bool
  entries : List FileEntry
deriving DecidableEq

/-- The chain stage pattern `if ENV_VAR: call the oracle` shared by
`_ai_suggest_category`, `_detect_subcategory` and `_suggest_filename`. -/
def stageResult (guard : Option Name) (call : Name → Name → Name → Option Reply)
    (filename file_type content : Name) : Option Reply :=
  match guard with
  | some _ => call filename file_type content
  | none => none

/-- `_ai_suggest_category` from `src/services/file_analysis_service.py`:
external LLM, then OpenAI, then the interactive prompt when
`INTERACTIVE_MODE=true`, and otherwise the terminal
`("Uncategorized", 0.0)` result. -/
def ai_suggest_category (cfg : Config) (filename file_type content : Name) :
    Name × Rat :=
  match stageResult cfg.external_llm_url cfg.external_llm filename file_type content with
  | some (cat, conf, _, _) => (cat, conf)
  | none =>
    match stageResult cfg.openai_api_key cfg.openai filename file_type content with
    | some (cat, conf, _, _) => (cat, conf)
    | none =>
      if cfg.interactive_mode then
        match cfg.interactive_classify filename file_type content with
        | some (cat, conf, _, _) => (cat, conf)
        | none => (uncategorized, 0)
      else (uncategorized, 0)

/-- `_suggest_category`, which delegates to `_ai_suggest_category`. -/
def suggest_category (cfg : Config) (filename file_type content : Name) :
    Name × Rat :=
  ai_suggest_category cfg filename file_type content

/-- The check `if result: ... if subcat: return subcat` applied to one oracle
reply inside `_detect_subcategory` (Python truthiness: a reply subcategory is
used only when it is neither `None` nor empty). -/
def subcatOfReply : Option Reply → Option Name
  | some (_, _, some s, _) => if s.isEmpty then none else some s
  | _ => none

/-- `_detect_subcategory` from `src/services/file_analysis_service.py`:
external LLM, then OpenAI, then the interactive subcategory prompt when
`INTERACTIVE_MODE=true`; otherwise `None`.  The lowered extension and
preview are passed to the oracles exactly as in the source. -/
def detect_subcategory (cfg : Config) (m : FileMetadata) : Option Name :=
  match subcatOfReply (stageResult cfg.external_llm_url cfg.external_llm
      m.original_name (lower m.file_type) (lower m.content_preview)) with
  | some s => some s
  | none =>
    match subcatOfReply (stageResult cfg.openai_api_key cfg.openai
        m.original_name (lower m.file_type) (lower m.content_preview)) with
    | some s => some s
    | none =>
      if cfg.interactive_mode then
        match cfg.interactive_subcategory m.suggested_category with
        | some s => if s.isEmpty then none else some s
        | none => none
      else none

/-- Index of the last dot of a filename, Python `name.rfind('.')`. -/
def lastDotIdx (s : Name) : Option Nat :=
  match s.reverse.findIdx? (fun c => c == '.') with
  | some j => some (s.length - 1 - j)
  | none => none

/-- Python `pathlib` stem/suffix splitting: the suffix starts at the last dot
provided that dot is neither the first nor the last character. -/
def stemSuffix (s : Name) : Name × Name :=
  match lastDotIdx s with
  | some i => if 0 < i ∧ i + 1 < s.length then (s.take i, s.drop i) else (s, [])
  | none => (s, [])

/-- Python substring membership `needle in hay`. -/
def substr (needle : Name) : Name → Bool
  | [] => needle.isEmpty
  | c :: t => needle.isPrefixOf (c :: t) || substr needle t

/-- The inline text-extension set of `is_text_file` in `src/utils/paths.py`. -/
def TEXT_EXTENSIONS : List Name :=
  [(r".txt").data, (r".md").data, (r".py").data, (r".js").data, (r".ts").data,
   (r".json").data, (r".yaml").data, (r".yml").data, (r".xml").data,
   (r".html").data, (r".css").data, (r".sql").data, (r".java").data,
   (r".cpp").data, (r".c").data, (r".h").data, (r".sh").data, (r".bash").data,
   (r".log").data, (r".csv").data, (r".ini").data, (r".conf").data,
   (r".config").data]

/-- `is_text_file` from `src/utils/paths.py`, applied to a file's lowercased
extension and byte size (10 MB ceiling). -/
def is_text_file (ext : Name) (size : Nat) : Bool :=
  decide (lower ext ∈ TEXT_EXTENSIONS) && decide (size ≤ 10 * 1024 * 1024)

/-- The reply-to-name check `if result and result[3]: return result[3]` of
`_suggest_filename` (a suggested name is used only when truthy). -/
def nameOfReply : Option Reply → Option Name
  | some (_, _, _, some nm) => if nm.isEmpty then none else some nm
  | _ => none

/-- `_suggest_filename` from `src/services/file_analysis_service.py`:
oracle-supplied name when available, else keep the original when its stem is
longer than 5 characters and contains an underscore, else prefix the stem
with the category. -/
def suggest_filename (cfg : Config) (original_name category file_type content_preview : Name) :
    Name :=
  match nameOfReply (stageResult cfg.external_llm_url cfg.external_llm
      original_name file_type content_preview) with
  | some nm => nm
  | none =>
    match nameOfReply (stageResult cfg.openai_api_key cfg.openai
        original_name file_type content_preview) with
    | some nm => nm
    | none =>
      if 5 < (stemSuffix original_name).1.length ∧ '_' ∈ (stemSuffix original_name).1 then
        original_name
      else category ++ '_' :: (stemSuffix original_name).1 ++ (stemSuffix original_name).2

/-- Python `str.strip(".,;:")` used on tag words. -/
def stripPunct (s : Name) : Name :=
  ((s.dropWhile (fun c => c ∈ ['.', ',', ';', ':'])).reverse.dropWhile
    (fun c => c ∈ ['.', ',', ';', ':'])).reverse

/-- Python `str.split()` on whitespace, dropping empty fragments. -/
def wordsOf (s : Name) : List Name :=
  (s.splitOnP Char.isWhitespace).filter (fun wd => !wd.isEmpty)

/-- Whether a word starts with an uppercase character, Python `w[0].isupper()`. -/
def headIsUpper : Name → Bool
  | [] => false
  | c :: _ => c.isUpper

/-- `_extract_tags` from `src/services/file_analysis_service.py`.  The Python
source deduplicates through `set()`, whose iteration order is unspecified;
the model keeps the first occurrence of each tag. -/
def extract_tags (filename content : Name) : List Name :=
  ((((stemSuffix filename).1.splitOnP (fun c => c == '_')).filter
      (fun p => 3 < p.length)) ++
    (if content.isEmpty then []
     else (((wordsOf content).take 50).filter
         (fun wd => 4 < wd.length && headIsUpper wd)).map
         (fun wd => stripPunct (lower wd)) |>.take 3)).eraseDups.take 5

/-- `_analyze_file` from `src/services/file_analysis_service.py` on a
readable file entry: lowered extension, bounded text preview, classification,
name suggestion and tags. -/
def analyze_file (cfg : Config) (fe : FileEntry) : FileMetadata :=
  { original_name := fe.name
    suggested_name := suggest_filename cfg fe.name
      (suggest_category cfg fe.name (lower (stemSuffix fe.name).2)
        (if is_text_file (stemSuffix fe.name).2 fe.size then fe.content.take 500 else [])).1
      (lower (stemSuffix fe.name).2)
      (if is_text_file (stemSuffix fe.name).2 fe.size then fe.content.take 500 else [])
    file_path := fe.name
    file_size := fe.size
    file_type := lower (stemSuffix fe.name).2
    suggested_category := (suggest_category cfg fe.name (lower (stemSuffix fe.name).2)
      (if is_text_file (stemSuffix fe.name).2 fe.size then fe.content.take 500 else [])).1
    confidence_score := (suggest_category cfg fe.name (lower (stemSuffix fe.name).2)
      (if is_text_file (stemSuffix fe.name).2 fe.size then fe.content.take 500 else [])).2
    content_preview :=
      (if is_text_file (stemSuffix fe.name).2 fe.size then fe.content.take 500 else []).take 200
    tags := extract_tags fe.name
      (if is_text_file (stemSuffix fe.name).2 fe.size then fe.content.take 500 else []) }

/-- Grouping key of `_organize_by_category`: `(top_category, subcategory or "")`. -/
abbrev GroupKey := Name × Name

/-- The key computed for one file inside the grouping loop. -/
def key_of (cfg : Config) (m : FileMetadata) : GroupKey :=
  (m.suggested_category, (detect_subcategory cfg m).getD [])

/-- The folder-name expression
`f"{top_category}/{subcategory}" if subcategory else top_category`. -/
def plan_folder_name (top : Name) (sub : Option Name) : Name :=
  match sub with
  | some s => if s.isEmpty then top else top ++ '/' :: s
  | none => top

/-- The fresh `FolderOrganization(category=..., suggested_folder_name=...)`
created when a key is first seen. -/
def new_plan (cfg : Config) (m : FileMetadata) : FolderOrganization :=
  { category := m.suggested_category
    files := []
    suggested_folder_name :=
      sanitize_folder_name (plan_folder_name m.suggested_category (detect_subcategory cfg m)) }

/-- The statement `organization[key].files.append(file_metadata)`: append the
file to the plan stored under the key (keys are unique in the dict). -/
def append_to_key : List (GroupKey × FolderOrganization) → GroupKey → FileMetadata →
    List (GroupKey × FolderOrganization)
  | [], _, _ => []
  | e :: rest, k, m =>
    if e.1 = k then (e.1, { e.2 with files := e.2.files ++ [m] }) :: rest
    else e :: append_to_key rest k m

/-- One iteration of the grouping loop of `_organize_by_category`. -/
def add_file (cfg : Config) (acc : List (GroupKey × FolderOrganization))
    (m : FileMetadata) : List (GroupKey × FolderOrganization) :=
  append_to_key
    (if key_of cfg m ∈ acc.map Prod.fst then acc
     else acc ++ [(key_of cfg m, new_plan cfg m)])
    (key_of cfg m) m

/-- The insertion-ordered `organization.values()` list after grouping. -/
def grouped_plans (cfg : Config) (files : List FileMetadata) :
    List FolderOrganization :=
  (files.foldl (add_file cfg) []).map Prod.snd

/-- Sorting relation of `sorted(..., key=lambda x: len(x.files), reverse=True)`:
a plan precedes another when its member count is at least as large, realised
by a stable sort. -/
def plan_count_ge (p q : FolderOrganization) : Prop :=
  q.files.length ≤ p.files.length

instance : DecidableRel plan_count_ge :=
  fun p q => Nat.decLe q.files.length p.files.length

instance : IsTotal FolderOrganization plan_count_ge :=
  ⟨fun p q => (Nat.le_total q.files.length p.files.length).elim Or.inl Or.inr⟩

instance : IsTrans FolderOrganization plan_count_ge :=
  ⟨fun _ _ _ hab hbc => le_trans hbc hab⟩

/-- `_organize_by_category` from `src/services/file_analysis_service.py`:
group by `(category, subcategory or "")` in first-seen order, then return the
plans sorted by descending file count (Python `sorted` is stable). -/
def organize_by_category (cfg : Config) (files : List FileMetadata) :
    List FolderOrganization :=
  List.insertionSort plan_count_ge (grouped_plans cfg files)

/-- Python dict assignment `structure[folder_name] = entry`: replace the value
at an existing key in place, otherwise append. -/
def setKey : List (Name × StructEntry) → Name → StructEntry →
    List (Name × StructEntry)
  | [], k, v => [(k, v)]
  | e :: rest, k, v => if e.1 = k then (k, v) :: rest else e :: setKey rest k v

/-- `_build_structure` from `src/services/file_analysis_service.py`. -/
def build_structure (plans : List FolderOrganization) : List (Name × StructEntry) :=
  plans.foldl
    (fun st p => setKey st p.suggested_folder_name
      (p.category, p.files.length, (p.files.map (fun f => f.suggested_name)).take 5))
    []

/-- `validate_path` from `src/utils/paths.py`: `InvalidPathError` when the
path does not exist or is not a directory. -/
def validate_path (f : Folder) : Except MCPError Unit :=
  if !f.path_exists then Except.error MCPError.invalidPath
  else if !f.is_dir then Except.error MCPError.invalidPath
  else Except.ok ()

/-- Lexicographic comparison of names, Python string `<=` used by
`sorted(files, key=lambda x: x.name)`. -/
def name_le : Name → Name → Bool
  | [], _ => true
  | _ :: _, [] => false
  | a :: as_, b :: bs => if a < b then true else if b < a then false else name_le as_ bs

/-- `_get_all_files`: enumeration failure raises `FileAccessError`, otherwise
the regular files sorted by name (Python `sorted` is a stable sort). -/
def get_all_files (f : Folder) : Except MCPError (List FileEntry) :=
  if f.enum_ok then
    Except.ok (List.insertionSort (fun x y : FileEntry => name_le x.name y.name = true) f.entries)
  else Except.error MCPError.fileAccess

/-- Body of the `try` block of `analyze_folder`: enumerate, analyze each file
and assemble the `OrganizationResult`. -/
def analyze_folder_body (cfg : Config) (f : Folder) :
    Except MCPError OrganizationResult :=
  match get_all_files f with
  | Except.error e => Except.error e
  | Except.ok files =>
    if files.isEmpty then
      Except.ok
        { source_folder := f.path, total_files := 0, organized_folders := []
          unorganized_files := [], suggested_structure := [] }
    else
      Except.ok
        { source_folder := f.path
          total_files := (files.map (analyze_file cfg)).length
          organized_folders := organize_by_category cfg (files.map (analyze_file cfg))
          unorganized_files :=
            (files.map (analyze_file cfg)).filter
              (fun m => m.suggested_category == uncategorized)
          suggested_structure :=
            build_structure (organize_by_category cfg (files.map (analyze_file cfg))) }

/-- `analyze_folder` from `src/services/file_analysis_service.py`:
`validate_path` runs before the `try` block, so `InvalidPathError`
propagates; every exception raised inside the block — including the
`FileAccessError` of `_get_all_files` — is caught by `except Exception` and
re-raised as a folder-level `AnalysisError`. -/
def analyze_folder (cfg : Config) (f : Folder) : Except MCPError OrganizationResult :=
  match validate_path f with
  | Except.error e => Except.error e
  | Except.ok _ =>
    match analyze_folder_body cfg f with
    | Except.ok res => Except.ok res
    | Except.error _ => Except.error MCPError.analysisError

/-- `CATEGORY_KEYWORDS` from `src/settings.py`, in source order. -/
def CATEGORY_KEYWORDS : List (Name × List Name) :=
  [((r"Documents").data,
    [(r"document").data, (r"doc").data, (r"pdf").data, (r"word").data,
     (r"text").data, (r"report").data, (r"essay").data, (r"article").data,
     (r"paper").data, (r"memo").data, (r"letter").data, (r"contract").data,
     (r"agreement").data]),
   ((r"Images").data,
    [(r"image").data, (r"photo").data, (r"picture").data, (r"img").data,
     (r"graphic").data, (r"design").data, (r"icon").data, (r"screenshot").data]),
   ((r"Videos").data,
    [(r"video").data, (r"movie").data, (r"film").data, (r"clip").data,
     (r"recording").data]),
   ((r"Audio").data,
    [(r"audio").data, (r"music").data, (r"sound").data, (r"song").data,
     (r"podcast").data]),
   ((r"Code").data,
    [(r"code").data, (r"script").data, (r"program").data, (r"source").data,
     (r"python").data, (r"java").data, (r"javascript").data]),
   ((r"Data").data,
    [(r"data").data, (r"dataset").data, (r"database").data, (r"csv").data,
     (r"sql").data, (r"excel").data, (r"sheet").data]),
   ((r"Configuration").data,
    [(r"config").data, (r"settings").data, (r"setup").data,
     (r"configuration").data])]

/-- Modelled from the spec: keyword matches of one category — how many of its
keywords appear as substrings of the lowercased filename or the lowercased
preview. -/
def keywordMatchesSpec (filename preview : Name) (kws : List Name) : Nat :=
  (kws.filter (fun kw => substr kw (lower filename) || substr kw (lower preview))).length

/-- Kernel-computable minimum of two rationals. -/
def ratMin (a b : Rat) : Rat := if a ≤ b then a else b

/-- Modelled from the spec: the keyword-table heuristic fallback — the
category with the highest nonzero match count wins (ties to the first
enumerated category), with confidence `min(matches / 3, 1.0)`; zero matches
everywhere yields `("Uncategorized", 0.0)`.  The spec describes this as the
terminal link of the classification chain, but it is absent from
`_ai_suggest_category` in `src/services/file_analysis_service.py`; only its
keyword table survives, unused, in `src/settings.py`. -/
def heuristic_suggest_category_spec (filename preview : Name) : Name × Rat :=
  match CATEGORY_KEYWORDS.foldl
      (fun (best : Option Name × Nat) ck =>
        if best.2 < keywordMatchesSpec filename preview ck.2 then
          (some ck.1, keywordMatchesSpec filename preview ck.2)
        else best)
      (none, 0) with
  | (some c, m) => (c, ratMin (mkRat m 3) 1)
  | (none, _) => (uncategorized, 0)

/-- Join a folder path and a file name, Python `folder / name`. -/
def join_path (folder nm : Name) : Name := folder ++ '/' :: nm

/-- The collision counter name `f"{stem}_{counter}{suffix}"` of `_move_file`. -/
def suffixed_name (nm : Name) (k : Nat) : Name :=
  (stemSuffix nm).1 ++ '_' :: (Nat.repr k).data ++ (stemSuffix nm).2

/-- The `while dest_path.exists()` counter loop of `_move_file`, searching
counters `k, k+1, ...` for a free destination name.  The Python loop is
unbounded; the model carries fuel, and `none` (fuel exhausted) never occurs
on the runs the theorems about it consider. -/
def find_free_name (existing : List Name) (destFolder nm : Name) :
    Nat → Nat → Option Name
  | 0, _ => none
  | fuel + 1, k =>
    if join_path destFolder (suffixed_name nm k) ∈ existing then
      find_free_name existing destFolder nm fuel (k + 1)
    else some (suffixed_name nm k)

/-- `_move_file` from `src/services/file_organization_service.py` acting on
the set of existing absolute paths: pick the suggested name if free,
otherwise the first `_1, _2, ...` suffixed name that is free, then
`shutil.move` (remove the source path, add the destination path).  Returns
the new path set and the final file name. -/
def move_file (existing : List Name) (source destFolder nm : Name) :
    Option (List Name × Name) :=
  if join_path destFolder nm ∈ existing then
    match find_free_name existing destFolder nm (existing.length + 1) 1 with
    | some nm2 => some ((existing.erase source) ++ [join_path destFolder nm2], nm2)
    | none => none
  else some ((existing.erase source) ++ [join_path destFolder nm], nm)

/-- The per-plan move loop of `organize_files`: move each listed source file
into the destination folder under its suggested name, via `_move_file`. -/
def move_all (destFolder : Name) : List Name → List (Name × Name) →
    Option (List Name × List Name)
  | existing, [] => some (existing, [])
  | existing, (src, nm) :: rest =>
    match move_file existing src destFolder nm with
    | some (ex2, f) =>
      match move_all destFolder ex2 rest with
      | some (ex3, finals) => some (ex3, f :: finals)
      | none => none
    | none => none

/-- What `_move_file` promises about its chosen final name: the suggested
name unchanged when its destination is free, otherwise the smallest counter
`k ≥ 1` whose suffixed name is free. -/
def collision_choice (existing : List Name) (destFolder nm final : Name) : Prop :=
  (join_path destFolder nm ∉ existing ∧ final = nm) ∨
  (join_path destFolder nm ∈ existing ∧
    ∃ k, 1 ≤ k ∧ final = suffixed_name nm k ∧
      join_path destFolder (suffixed_name nm k) ∉ existing ∧
      ∀ j, 1 ≤ j → j < k → join_path destFolder (suffixed_name nm j) ∈ existing)

/-- Filesystem state for the organization service: existing directories and
existing file paths. -/
structure FS where
  dirs : List Name
  files : List Name
deriving DecidableEq

/-- Per-plan body of the `organize_files` loop when both `create_folders` and
`move_files` hold: move every file of the plan, recording moves (under the
suggested name, as the source does) and per-file errors. -/
def move_plan_files (destFolder : Name) :
    List Name → List (Name × Name) → List Name → List FileMetadata →
    List Name × List (Name × Name) × List Name
  | existing, moved, errors, [] => (existing, moved, errors)
  | existing, moved, errors, m :: rest =>
    match move_file existing m.file_path destFolder m.suggested_name with
    | some (ex2, _) =>
      move_plan_files destFolder ex2
        (moved ++ [(m.file_path, join_path destFolder m.suggested_name)]) errors rest
    | none => move_plan_files destFolder existing moved (errors ++ [m.original_name]) rest

/-- One iteration of the plan loop of `organize_files`: `mkdir(exist_ok=True)`
when `create_folders`, then the move loop when additionally `move_files`. -/
def organize_step (source_folder : Name) (create_folders move_files : Bool)
    (st : FS × List Name × List (Name × Name) × List Name)
    (plan : FolderOrganization) : FS × List Name × List (Name × Name) × List Name :=
  if create_folders then
    let folderPath := join_path source_folder plan.suggested_folder_name
    let fs2 : FS :=
      { st.1 with dirs := if folderPath ∈ st.1.dirs then st.1.dirs
                          else st.1.dirs ++ [folderPath] }
    let created2 := st.2.1 ++ [folderPath]
    if move_files then
      match move_plan_files folderPath fs2.files st.2.2.1 st.2.2.2 plan.files with
      | (ex2, moved2, errors2) => ({ fs2 with files := ex2 }, created2, moved2, errors2)
    else (fs2, created2, st.2.2.1, st.2.2.2)
  else st

/-- `organize_files` from `src/services/file_organization_service.py`:
`FileAccessError` when the source folder no longer exists, otherwise the plan
loop collecting created folders, moved files and per-item errors.  Files are
moved only when `move_files` and `create_folders` both hold. -/
def organize_files (fs : FS) (res : OrganizationResult)
    (create_folders move_files : Bool) :
    Except MCPError (FS × List Name × List (Name × Name) × List Name) :=
  if res.source_folder ∈ fs.dirs then
    Except.ok (res.organized_folders.foldl
      (organize_step res.source_folder create_folders move_files) (fs, [], [], []))
  else Except.error MCPError.fileAccess

/-- All files stored across an association list of grouping entries, in
order. -/
def join_files (acc : List (GroupKey × FolderOrganization)) : List FileMetadata :=
  (acc.map (fun e => e.2.files)).flatten

/-- All files stored across a plan list, in order. -/
def plans_files (plans : List FolderOrganization) : List FileMetadata :=
  (plans.map (fun p => p.files)).flatten

/-- The subcategory recoverable from the `subcategory or ""` component of a
grouping key (detection never produces an empty subcategory). -/
def optOfKey (s : Name) : Option Name :=
  if s = [] then none else some s

/-- The baseline environment: no oracle endpoint, no API key, no interactive
mode (no relevant environment variable set). -/
def cfgNone : Config :=
  { external_llm_url := none
    external_llm := fun _ _ _ => none
    openai_api_key := none
    openai := fun _ _ _ => none
    interactive_mode := false
    interactive_classify := fun _ _ _ => none
    interactive_subcategory := fun _ => none }

/-- An environment whose external oracle answers with an out-of-range
confidence of `5/2`. -/
def cfgBadConf : Config :=
  { cfgNone with
    external_llm_url := some ((r"http://oracle").data)
    external_llm := fun _ _ _ => some ((r"Documents").data, mkRat 5 2, none, none) }

/-- An environment whose external oracle classifies everything as
`Code`/`Python`. -/
def cfgSub : Config :=
  { cfgNone with
    external_llm_url := some ((r"http://oracle").data)
    external_llm := fun _ _ _ =>
      some ((r"Code").data, mkRat 9 10, some ((r"Python").data), none) }

/-- The spec example file `report.txt`. -/
def feReport : FileEntry :=
  { name := (r"report.txt").data, size := 25
    content := (r"This is a report document").data }

/-- The spec example file `script.py`. -/
def feScript : FileEntry :=
  { name := (r"script.py").data, size := 14, content := (r"hello").data }

/-- A folder that exists and is a directory but whose enumeration fails. -/
def folderEnumFail : Folder :=
  { path := (r"watched").data, path_exists := true, is_dir := true
    enum_ok := false, entries := [] }

/-- A folder that exists, is a directory, and enumerates one file. -/
def folderOneFile : Folder :=
  { path := (r"watched").data, path_exists := true, is_dir := true
    enum_ok := true, entries := [feReport] }

/-- Destination folder of the collision scenario. -/
def dstFolder : Name := (r"dst").data

/-- First colliding source path. -/
def srcA : Name := (r"src/a.txt").data

/-- Second colliding source path. -/
def srcB : Name := (r"src/b.txt").data

/-- Two source files whose suggested destination names collide. -/
def collidingMoves : List (Name × Name) :=
  [(srcA, (r"report.txt").data), (srcB, (r"report.txt").data)]

/-- The path set before the collision scenario runs. -/
def fs0 : List Name := [srcA, srcB]

/-- A 210-character name whose sanitization is not a fixed point: truncation
to 200 characters exposes a trailing dot that a second pass strips. -/
def sLong : Name := List.replicate 199 'a' ++ '.' :: List.replicate 10 'b'

/-- A path that does not exist. -/
def folderMissing : Folder :=
  { path := (r"gone").data, path_exists := false, is_dir := true
    enum_ok := true, entries := [] }

/-- Filesystem fixture for the organization service. -/
def fsW : FS := { dirs := [(r"watched").data], files := [srcA, srcB] }

/-- An analysis result fixture whose source folder is `fsW`'s directory. -/
def resW : OrganizationResult :=
  { source_folder := (r"watched").data
    total_files := 1
    organized_folders :=
      [{ category := (r"Uncategorized").data
         files := [analyze_file cfgNone feReport]
         suggested_folder_name := (r"Uncategorized").data }]
    unorganized_files := [analyze_file cfgNone feReport]
    suggested_structure := [] }

end MCPFolder

namespace MCPFolder

theorem replaceList_eq_map (cs : List Char) (hcs : '_' ∉ cs) (s : Name) :
    cs.foldl (fun acc c => replaceChar c acc) s
      = s.map (fun x => if x ∈ cs then '_' else x) := by
  induction cs generalizing s with
  | nil => simp
  | cons c cs ih =>
    have hcs' : '_' ∉ cs := fun h => hcs (List.mem_cons_of_mem _ h)
    have hne : ('_' : Char) ≠ c := fun h => hcs (h ▸ List.mem_cons_self _ _)
    simp only [List.foldl_cons]
    rw [ih hcs']
    simp only [replaceChar, List.map_map]
    apply List.map_congr_left
    intro x _
    by_cases hx : x = c
    · subst hx
      simp [hcs', hne]
    · simp [hx]

theorem replaceInvalid_eq_map (s : Name) : replaceInvalid s = s.map canonChar := by
  rw [replaceInvalid, replaceList_eq_map invalidChars (by decide)]
  rfl

theorem mem_replaceInvalid_not_invalid {s : Name} {c : Char}
    (hc : c ∈ replaceInvalid s) : c ∉ invalidChars := by
  rw [replaceInvalid_eq_map] at hc
  obtain ⟨a, -, rfl⟩ := List.mem_map.mp hc
  by_cases h : a ∈ invalidChars
  · simp only [canonChar, if_pos h]
    decide
  · simp only [canonChar, if_neg h]
    exact h

theorem map_eq_self_of_fix {l : Name} {f : Char → Char}
    (h : ∀ c ∈ l, f c = c) : l.map f = l := by
  induction l with
  | nil => rfl
  | cons a t ih =>
    simp only [List.map_cons]
    rw [h a (List.mem_cons_self _ _), ih (fun c hc => h c (List.mem_cons_of_mem _ hc))]

theorem replaceInvalid_of_clean {s : Name} (h : ∀ c ∈ s, c ∉ invalidChars) :
    replaceInvalid s = s := by
  rw [replaceInvalid_eq_map]
  exact map_eq_self_of_fix (fun c hc => if_neg (h c hc))

theorem mem_stripDots {s : Name} {c : Char} (hc : c ∈ stripDots s) : c ∈ s := by
  unfold stripDots at hc
  rw [List.mem_reverse] at hc
  have h1 := (List.dropWhile_sublist isStripChar).subset hc
  rw [List.mem_reverse] at h1
  exact (List.dropWhile_sublist isStripChar).subset h1

theorem stripDots_length_le (s : Name) : (stripDots s).length ≤ s.length := by
  unfold stripDots
  rw [List.length_reverse]
  calc ((s.dropWhile isStripChar).reverse.dropWhile isStripChar).length
      ≤ (s.dropWhile isStripChar).reverse.length :=
        (List.dropWhile_sublist _).length_le
    _ = (s.dropWhile isStripChar).length := List.length_reverse _
    _ ≤ s.length := (List.dropWhile_sublist _).length_le

theorem head_dropWhile_not (p : Char → Bool) (l : Name) :
    ∀ x, (l.dropWhile p).head? = some x → p x = false := by
  induction l with
  | nil => intro x hx; simp at hx
  | cons a t ih =>
    intro x hx
    rw [List.dropWhile_cons] at hx
    by_cases hpa : p a = true
    · rw [if_pos hpa] at hx
      exact ih x hx
    · rw [if_neg hpa] at hx
      simp only [List.head?_cons, Option.some.injEq] at hx
      subst hx
      exact Bool.eq_false_iff.mpr hpa

theorem dropWhile_eq_self_of_head (p : Char → Bool) (l : Name)
    (h : ∀ x, l.head? = some x → p x = false) : l.dropWhile p = l := by
  cases l with
  | nil => rfl
  | cons a t =>
    rw [List.dropWhile_cons, if_neg]
    simp [h a rfl]

theorem getLast_dropWhile_of_ne_nil (p : Char → Bool) (l : Name)
    (h : l.dropWhile p ≠ []) : (l.dropWhile p).getLast? = l.getLast? := by
  conv_rhs => rw [← List.takeWhile_append_dropWhile p l]
  exact (List.getLast?_append_of_ne_nil _ h).symm

theorem stripDots_head (s : Name) :
    ∀ x, (stripDots s).head? = some x → isStripChar x = false := by
  intro x hx
  unfold stripDots at hx
  rw [List.head?_reverse] at hx
  by_cases hnil : (s.dropWhile isStripChar).reverse.dropWhile isStripChar = []
  · rw [hnil] at hx; simp at hx
  · rw [getLast_dropWhile_of_ne_nil _ _ hnil, List.getLast?_reverse] at hx
    exact head_dropWhile_not _ _ x hx

theorem stripDots_getLast (s : Name) :
    ∀ x, (stripDots s).getLast? = some x → isStripChar x = false := by
  intro x hx
  unfold stripDots at hx
  rw [List.getLast?_reverse] at hx
  exact head_dropWhile_not _ _ x hx

theorem stripDots_of_clean_ends (l : Name)
    (hh : ∀ x, l.head? = some x → isStripChar x = false)
    (hl : ∀ x, l.getLast? = some x → isStripChar x = false) :
    stripDots l = l := by
  unfold stripDots
  rw [dropWhile_eq_self_of_head _ _ hh]
  rw [dropWhile_eq_self_of_head _ _ (by
    intro x hx
    rw [List.head?_reverse] at hx
    exact hl x hx)]
  exact List.reverse_reverse l

theorem stripDots_idem (s : Name) : stripDots (stripDots s) = stripDots s :=
  stripDots_of_clean_ends _ (stripDots_head s) (stripDots_getLast s)

theorem folderFallback_eq : folderFallback = ['f', 'o', 'l', 'd', 'e', 'r'] := by
  decide

theorem mem_sanitize_not_invalid {s : Name} {c : Char}
    (hc : c ∈ sanitize_folder_name s) : c ∉ invalidChars := by
  unfold sanitize_folder_name at hc
  by_cases hnil : truncate200 (stripDots (replaceInvalid s)) = []
  · rw [if_pos hnil, folderFallback_eq] at hc
    simp only [List.mem_cons, List.not_mem_nil, or_false] at hc
    rcases hc with rfl | rfl | rfl | rfl | rfl | rfl <;> decide
  · rw [if_neg hnil] at hc
    unfold truncate200 at hc
    have hc' : c ∈ stripDots (replaceInvalid s) := by
      by_cases hlen : 200 < (stripDots (replaceInvalid s)).length
      · rw [if_pos hlen] at hc
        exact (List.take_sublist _ _).subset hc
      · rwa [if_neg hlen] at hc
    exact mem_replaceInvalid_not_invalid (mem_stripDots hc')

theorem sanitize_idem_of_short (s : Name) (h : s.length ≤ 200) :
    sanitize_folder_name (sanitize_folder_name s) = sanitize_folder_name s := by
  have hlen1 : (replaceInvalid s).length = s.length := by
    rw [replaceInvalid_eq_map, List.length_map]
  have hlen2 : (stripDots (replaceInvalid s)).length ≤ 200 := by
    calc (stripDots (replaceInvalid s)).length
        ≤ (replaceInvalid s).length := stripDots_length_le _
      _ = s.length := hlen1
      _ ≤ 200 := h
  have htr : truncate200 (stripDots (replaceInvalid s)) = stripDots (replaceInvalid s) := by
    unfold truncate200
    rw [if_neg (by omega)]
  by_cases hnil : stripDots (replaceInvalid s) = []
  · have h1 : sanitize_folder_name s = folderFallback := by
      unfold sanitize_folder_name
      rw [htr, if_pos hnil]
    rw [h1]
    decide
  · have h1 : sanitize_folder_name s = stripDots (replaceInvalid s) := by
      unfold sanitize_folder_name
      rw [htr, if_neg hnil]
    rw [h1]
    have hclean : ∀ c ∈ stripDots (replaceInvalid s), c ∉ invalidChars :=
      fun c hc => mem_replaceInvalid_not_invalid (mem_stripDots hc)
    unfold sanitize_folder_name
    rw [replaceInvalid_of_clean hclean, stripDots_idem, htr, if_neg hnil]

end MCPFolder

namespace MCPFolder

set_option maxRecDepth 8192

theorem ai_suggest_category_none (cfg : Config) (fn ft ct : Name)
    (h1 : cfg.external_llm_url = none) (h2 : cfg.openai_api_key = none)
    (h3 : cfg.interactive_mode = false) :
    ai_suggest_category cfg fn ft ct = (uncategorized, 0) := by
  simp [ai_suggest_category, stageResult, h1, h2, h3]

theorem foldl_const {α β : Type _} (f : β → α → β) (b : β) (h : ∀ a, f b a = b) :
    ∀ l : List α, l.foldl f b = b
  | [] => rfl
  | a :: l => by rw [List.foldl_cons, h a]; exact foldl_const f b h l

/-- C1: without an oracle endpoint, an API key, or interactive mode, the
classification chain terminates in `("Uncategorized", 0.0)` — it does not run
the keyword-table heuristic the claim describes.  On the claim's own example
`report.txt` with preview "This is a report document" the code yields
`Uncategorized` with confidence `0`, while the spec's keyword heuristic
(modelled separately) would yield `Documents` with confidence `1`. -/
theorem terminal_stage_is_uncategorized_not_keyword_heuristic :
    ai_suggest_category cfgNone ((r"report.txt").data) ((r".txt").data)
        ((r"This is a report document").data) = (uncategorized, 0) ∧
      (analyze_file cfgNone feReport).suggested_category = uncategorized ∧
      (analyze_file cfgNone feReport).confidence_score = 0 ∧
      heuristic_suggest_category_spec ((r"report.txt").data)
        ((r"This is a report document").data) = ((r"Documents").data, 1) := by
  refine ⟨rfl, rfl, rfl, by decide⟩

/-- C2 counterexample: with no oracle and no interactive mode configured,
`_detect_subcategory` returns no subcategory at all for `script.py`; in
particular it does not assign `"Python"`. -/
theorem script_gets_no_python_subcategory :
    detect_subcategory cfgNone (analyze_file cfgNone feScript) = none ∧
      detect_subcategory cfgNone (analyze_file cfgNone feScript) ≠
        some ((r"Python").data) := by
  refine ⟨rfl, by decide⟩

/-- C2 (amended): when no oracle and no interactive mode are configured,
subcategory detection returns `None` for every file — the terminal stage of
`_detect_subcategory` has no extension/keyword heuristic. -/
theorem detect_subcategory_none_without_oracle (cfg : Config) (m : FileMetadata)
    (h1 : cfg.external_llm_url = none) (h2 : cfg.openai_api_key = none)
    (h3 : cfg.interactive_mode = false) :
    detect_subcategory cfg m = none := by
  simp [detect_subcategory, stageResult, subcatOfReply, h1, h2, h3]

/-- Witness for the amended C2 theorem at a concrete configuration and file. -/
theorem detect_subcategory_none_without_oracle_witness :
    detect_subcategory cfgNone (analyze_file cfgNone feReport) = none :=
  detect_subcategory_none_without_oracle cfgNone (analyze_file cfgNone feReport) rfl rfl rfl

/-- C4 counterexample: an oracle reply with confidence `5/2` is stored
unclamped in the analyzed record, so the claimed invariant
`confidence ∈ [0, 1]` fails under oracle configurations. -/
theorem oracle_confidence_out_of_range :
    (analyze_file cfgBadConf feReport).confidence_score = mkRat 5 2 ∧
      ¬ (analyze_file cfgBadConf feReport).confidence_score ≤ 1 := by
  refine ⟨rfl, by decide⟩

/-- C4 (amended): when no oracle and no interactive mode are configured,
every analyzed record has confidence in `[0, 1]`, and the confidence is `0`
exactly when the category is `"Uncategorized"` (both always hold on this
configuration, where the chain is terminal). -/
theorem confidence_range_without_oracle (cfg : Config) (fe : FileEntry)
    (h1 : cfg.external_llm_url = none) (h2 : cfg.openai_api_key = none)
    (h3 : cfg.interactive_mode = false) :
    0 ≤ (analyze_file cfg fe).confidence_score ∧
      (analyze_file cfg fe).confidence_score ≤ 1 ∧
      ((analyze_file cfg fe).confidence_score = 0 ↔
        (analyze_file cfg fe).suggested_category = uncategorized) := by
  simp only [analyze_file, suggest_category]
  rw [ai_suggest_category_none cfg _ _ _ h1 h2 h3]
  refine ⟨le_refl 0, by norm_num, by simp⟩

/-- Witness for the amended C4 theorem at a concrete configuration and file. -/
theorem confidence_range_without_oracle_witness :
    0 ≤ (analyze_file cfgNone feScript).confidence_score ∧
      (analyze_file cfgNone feScript).confidence_score ≤ 1 ∧
      ((analyze_file cfgNone feScript).confidence_score = 0 ↔
        (analyze_file cfgNone feScript).suggested_category = uncategorized) :=
  confidence_range_without_oracle cfgNone feScript rfl rfl rfl

/-- C7 counterexample: when enumeration of an existing directory fails, the
caller receives the folder-level `AnalysisError` wrapper, not the
`FileAccessError` the claim promises — `analyze_folder`'s `except Exception`
catches and re-wraps it. -/
theorem enumeration_failure_surfaces_as_analysis_error :
    analyze_folder cfgNone folderEnumFail = Except.error MCPError.analysisError ∧
      (Except.error MCPError.analysisError : Except MCPError OrganizationResult) ≠
        Except.error MCPError.fileAccess := by
  refine ⟨rfl, by simp⟩

/-- C7 (amended): `analyze_folder` surfaces `InvalidPathError` when the path
is missing or not a directory; an enumeration failure is wrapped into the
folder-level `AnalysisError`; and otherwise the analysis succeeds — so
`InvalidPathError` and `AnalysisError` are the only failures the caller
sees. -/
theorem analyze_folder_error_taxonomy (cfg : Config) (f : Folder) :
    ((f.path_exists = false ∨ f.is_dir = false) →
      analyze_folder cfg f = Except.error MCPError.invalidPath) ∧
    (f.path_exists = true → f.is_dir = true → f.enum_ok = false →
      analyze_folder cfg f = Except.error MCPError.analysisError) ∧
    (f.path_exists = true → f.is_dir = true → f.enum_ok = true →
      ∃ res, analyze_folder cfg f = Except.ok res) := by
  refine ⟨?_, ?_, ?_⟩
  · rintro (h | h)
    · simp [analyze_folder, validate_path, h]
    · by_cases hpe : f.path_exists = true
      · simp [analyze_folder, validate_path, h, hpe]
      · simp [analyze_folder, validate_path,
          Bool.eq_false_iff.mpr (fun hx => hpe hx)]
  · intro h1 h2 h3
    simp [analyze_folder, validate_path, h1, h2, analyze_folder_body,
      get_all_files, h3]
  · intro h1 h2 h3
    have hbody : ∃ x, analyze_folder_body cfg f = Except.ok x := by
      unfold analyze_folder_body
      rw [get_all_files, if_pos h3]
      dsimp only
      by_cases he :
          (List.insertionSort (fun x y : FileEntry => name_le x.name y.name = true)
            f.entries).isEmpty = true
      · rw [if_pos he]; exact ⟨_, rfl⟩
      · rw [if_neg he]; exact ⟨_, rfl⟩
    obtain ⟨x, hx⟩ := hbody
    refine ⟨x, ?_⟩
    simp [analyze_folder, validate_path, h1, h2, hx]

/-- Witness for the amended C7 theorem: a missing path yields
`InvalidPathError`; a readable folder yields a successful result. -/
theorem analyze_folder_error_taxonomy_witness :
    analyze_folder cfgNone folderMissing = Except.error MCPError.invalidPath ∧
      ∃ res, analyze_folder cfgNone folderOneFile = Except.ok res :=
  ⟨(analyze_folder_error_taxonomy cfgNone folderMissing).1 (Or.inl rfl),
   (analyze_folder_error_taxonomy cfgNone folderOneFile).2.2 rfl rfl rfl⟩

/-- C8: `organize` with `move_files = true` but `create_folders = false`
returns an empty created list, an empty moved list and no errors, and leaves
the filesystem unchanged — the per-plan body only acts under
`create_folders`. -/
theorem organize_move_without_create_is_noop (fs : FS) (res : OrganizationResult)
    (h : res.source_folder ∈ fs.dirs) :
    organize_files fs res false true = Except.ok (fs, [], [], []) := by
  unfold organize_files
  rw [if_pos h]
  rw [foldl_const _ _ (fun _ => rfl)]

/-- Witness for the C8 theorem on a concrete filesystem and result. -/
theorem organize_move_without_create_is_noop_witness :
    organize_files fsW resW false true = Except.ok (fsW, [], [], []) :=
  organize_move_without_create_is_noop fsW resW (by decide)

/-- C10 counterexample: sanitization is not idempotent — on a 210-character
name the 200-character truncation exposes a trailing dot, which a second
sanitization pass strips. -/
theorem sanitize_folder_name_not_idempotent :
    sanitize_folder_name (sanitize_folder_name sLong) ≠ sanitize_folder_name sLong := by
  decide

/-- C10 (amended): the folder-name sanitizer is idempotent on every input of
length at most 200, where no truncation occurs. -/
theorem sanitize_folder_name_idempotent_short (s : Name) (h : s.length ≤ 200) :
    sanitize_folder_name (sanitize_folder_name s) = sanitize_folder_name s :=
  sanitize_idem_of_short s h

/-- Witness for the amended C10 theorem at a concrete short name. -/
theorem sanitize_folder_name_idempotent_short_witness :
    ((r"my report.").data).length ≤ 200 ∧
      sanitize_folder_name (sanitize_folder_name ((r"my report.").data)) =
        sanitize_folder_name ((r"my report.").data) :=
  ⟨by decide, sanitize_folder_name_idempotent_short ((r"my report.").data) (by decide)⟩

end MCPFolder

namespace MCPFolder

open List

theorem join_files_cons (e : GroupKey × FolderOrganization)
    (rest : List (GroupKey × FolderOrganization)) :
    join_files (e :: rest) = e.2.files ++ join_files rest := rfl

theorem append_to_key_keys (acc : List (GroupKey × FolderOrganization))
    (k : GroupKey) (m : FileMetadata) :
    (append_to_key acc k m).map Prod.fst = acc.map Prod.fst := by
  induction acc with
  | nil => rfl
  | cons e rest ih =>
    by_cases h : e.1 = k
    · simp [append_to_key, h]
    · simp [append_to_key, h, ih]

theorem join_files_append_to_key (acc : List (GroupKey × FolderOrganization))
    (k : GroupKey) (m : FileMetadata) (hk : k ∈ acc.map Prod.fst) :
    join_files (append_to_key acc k m) ~ m :: join_files acc := by
  induction acc with
  | nil => simp at hk
  | cons e rest ih =>
    by_cases h : e.1 = k
    · simp only [append_to_key, if_pos h, join_files_cons]
      calc (e.2.files ++ [m]) ++ join_files rest
          = e.2.files ++ m :: join_files rest := by rw [List.append_assoc]; rfl
        _ ~ m :: (e.2.files ++ join_files rest) := List.perm_middle
    · have hk' : k ∈ rest.map Prod.fst := by
        rw [List.map_cons] at hk
        rcases List.mem_cons.mp hk with h1 | h1
        · exact absurd h1.symm h
        · exact h1
      simp only [append_to_key, if_neg h, join_files_cons]
      calc e.2.files ++ join_files (append_to_key rest k m)
          ~ e.2.files ++ (m :: join_files rest) := List.Perm.append_left _ (ih hk')
        _ ~ m :: (e.2.files ++ join_files rest) := List.perm_middle

theorem join_files_append_new (acc : List (GroupKey × FolderOrganization))
    (k : GroupKey) (p : FolderOrganization) (hp : p.files = []) :
    join_files (acc ++ [(k, p)]) = join_files acc := by
  simp [join_files, hp]

theorem join_files_add_file (cfg : Config)
    (acc : List (GroupKey × FolderOrganization)) (m : FileMetadata) :
    join_files (add_file cfg acc m) ~ m :: join_files acc := by
  unfold add_file
  by_cases h : key_of cfg m ∈ acc.map Prod.fst
  · rw [if_pos h]
    exact join_files_append_to_key acc _ m h
  · rw [if_neg h]
    have h2 : key_of cfg m ∈
        (acc ++ [(key_of cfg m, new_plan cfg m)]).map Prod.fst :=
      List.mem_map_of_mem Prod.fst
        (List.mem_append_right acc (List.mem_singleton.mpr rfl))
    have h3 := join_files_append_to_key _ _ m h2
    rwa [join_files_append_new acc _ _ rfl] at h3

theorem join_files_foldl (cfg : Config) :
    ∀ (files : List FileMetadata) (acc : List (GroupKey × FolderOrganization)),
      join_files (files.foldl (add_file cfg) acc) ~ join_files acc ++ files
  | [], acc => by simp
  | m :: fs, acc => by
    calc join_files ((m :: fs).foldl (add_file cfg) acc)
        = join_files (fs.foldl (add_file cfg) (add_file cfg acc m)) := rfl
      _ ~ join_files (add_file cfg acc m) ++ fs := join_files_foldl cfg fs _
      _ ~ (m :: join_files acc) ++ fs :=
          List.Perm.append_right _ (join_files_add_file cfg acc m)
      _ = m :: (join_files acc ++ fs) := rfl
      _ ~ join_files acc ++ (m :: fs) := List.perm_middle.symm

theorem plans_files_grouped (cfg : Config) (files : List FileMetadata) :
    plans_files (grouped_plans cfg files) =
      join_files (files.foldl (add_file cfg) []) := by
  simp [plans_files, grouped_plans, join_files, List.map_map]
  rfl

theorem grouped_plans_perm (cfg : Config) (files : List FileMetadata) :
    plans_files (grouped_plans cfg files) ~ files := by
  rw [plans_files_grouped]
  simpa using join_files_foldl cfg files []

theorem sum_lengths_grouped (cfg : Config) (files : List FileMetadata) :
    ((grouped_plans cfg files).map (fun p => p.files.length)).sum = files.length := by
  calc ((grouped_plans cfg files).map (fun p => p.files.length)).sum
      = (((grouped_plans cfg files).map (fun p => p.files)).map List.length).sum := by
        rw [List.map_map]; rfl
    _ = (plans_files (grouped_plans cfg files)).length :=
        (List.length_flatten _).symm
    _ = files.length := (grouped_plans_perm cfg files).length_eq

theorem organize_perm_grouped (cfg : Config) (files : List FileMetadata) :
    organize_by_category cfg files ~ grouped_plans cfg files :=
  List.perm_insertionSort plan_count_ge (grouped_plans cfg files)

theorem sum_lengths_organized (cfg : Config) (files : List FileMetadata) :
    ((organize_by_category cfg files).map (fun p => p.files.length)).sum = files.length := by
  rw [((organize_perm_grouped cfg files).map (fun p => p.files.length)).sum_eq]
  exact sum_lengths_grouped cfg files

end MCPFolder

namespace MCPFolder

open List

theorem subcatOfReply_some (r : Option Reply) (s : Name)
    (h : subcatOfReply r = some s) : s ≠ [] := by
  match r with
  | none => simp [subcatOfReply] at h
  | some (a, b, none, d) => simp [subcatOfReply] at h
  | some (a, b, some s0, d) =>
    simp only [subcatOfReply] at h
    by_cases he : s0.isEmpty
    · rw [if_pos he] at h; cases h
    · rw [if_neg he] at h
      cases h
      intro hc
      subst hc
      exact he rfl

theorem detect_some_not_empty (cfg : Config) (m : FileMetadata) (s : Name)
    (h : detect_subcategory cfg m = some s) : s ≠ [] := by
  revert h
  unfold detect_subcategory
  cases h1 : subcatOfReply (stageResult cfg.external_llm_url cfg.external_llm
      m.original_name (lower m.file_type) (lower m.content_preview)) with
  | some s1 =>
    dsimp only
    intro h
    cases h
    exact subcatOfReply_some _ _ h1
  | none =>
    dsimp only
    cases h2 : subcatOfReply (stageResult cfg.openai_api_key cfg.openai
        m.original_name (lower m.file_type) (lower m.content_preview)) with
    | some s2 =>
      dsimp only
      intro h
      cases h
      exact subcatOfReply_some _ _ h2
    | none =>
      dsimp only
      by_cases hi : cfg.interactive_mode
      · rw [if_pos hi]
        cases h3 : cfg.interactive_subcategory m.suggested_category with
        | none => dsimp only; intro h; cases h
        | some s3 =>
          dsimp only
          by_cases he : s3.isEmpty
          · rw [if_pos he]; intro h; cases h
          · rw [if_neg he]
            intro h
            cases h
            intro hc
            subst hc
            exact he rfl
      · rw [if_neg hi]; intro h; cases h

theorem detect_eq_optOfKey (cfg : Config) (m : FileMetadata) :
    optOfKey ((detect_subcategory cfg m).getD []) = detect_subcategory cfg m := by
  cases hd : detect_subcategory cfg m with
  | none => simp [optOfKey]
  | some s =>
    have hs := detect_some_not_empty cfg m s hd
    simp [optOfKey, hs]

theorem new_plan_shape (cfg : Config) (m : FileMetadata) :
    (new_plan cfg m).category = (key_of cfg m).1 ∧
      (new_plan cfg m).suggested_folder_name =
        sanitize_folder_name
          (plan_folder_name (key_of cfg m).1 (optOfKey (key_of cfg m).2)) := by
  refine ⟨rfl, ?_⟩
  unfold new_plan key_of
  rw [detect_eq_optOfKey]

theorem mem_append_to_key (acc : List (GroupKey × FolderOrganization))
    (k : GroupKey) (m : FileMetadata) :
    ∀ e ∈ append_to_key acc k m,
      e ∈ acc ∨ ∃ e0, e0 ∈ acc ∧ e0.1 = k ∧
        e = (e0.1, { e0.2 with files := e0.2.files ++ [m] }) := by
  induction acc with
  | nil => intro e he; simp [append_to_key] at he
  | cons a rest ih =>
    intro e he
    by_cases h : a.1 = k
    · simp only [append_to_key, if_pos h] at he
      rcases List.mem_cons.mp he with rfl | h1
      · exact Or.inr ⟨a, List.mem_cons_self a rest, h, rfl⟩
      · exact Or.inl (List.mem_cons_of_mem a h1)
    · simp only [append_to_key, if_neg h] at he
      rcases List.mem_cons.mp he with rfl | h1
      · exact Or.inl (List.mem_cons_self _ _)
      · rcases ih e h1 with h2 | ⟨e0, he0, hk0, he'⟩
        · exact Or.inl (List.mem_cons_of_mem a h2)
        · exact Or.inr ⟨e0, List.mem_cons_of_mem a he0, hk0, he'⟩

theorem entry_invariant_step (cfg : Config)
    (acc : List (GroupKey × FolderOrganization)) (m : FileMetadata)
    (hacc : ∀ e ∈ acc, (∀ x ∈ e.2.files, key_of cfg x = e.1) ∧
      e.2.category = e.1.1 ∧
      e.2.suggested_folder_name =
        sanitize_folder_name (plan_folder_name e.1.1 (optOfKey e.1.2))) :
    ∀ e ∈ add_file cfg acc m, (∀ x ∈ e.2.files, key_of cfg x = e.1) ∧
      e.2.category = e.1.1 ∧
      e.2.suggested_folder_name =
        sanitize_folder_name (plan_folder_name e.1.1 (optOfKey e.1.2)) := by
  have hacc2 : ∀ e ∈ (if key_of cfg m ∈ acc.map Prod.fst then acc
      else acc ++ [(key_of cfg m, new_plan cfg m)]),
      (∀ x ∈ e.2.files, key_of cfg x = e.1) ∧
      e.2.category = e.1.1 ∧
      e.2.suggested_folder_name =
        sanitize_folder_name (plan_folder_name e.1.1 (optOfKey e.1.2)) := by
    by_cases hk : key_of cfg m ∈ acc.map Prod.fst
    · rw [if_pos hk]; exact hacc
    · rw [if_neg hk]
      intro e he
      rcases List.mem_append.mp he with h2 | h2
      · exact hacc e h2
      · have he' : e = (key_of cfg m, new_plan cfg m) := by simpa using h2
        subst he'
        exact ⟨fun x hx => absurd hx (List.not_mem_nil x),
          (new_plan_shape cfg m).1, (new_plan_shape cfg m).2⟩
  intro e he
  unfold add_file at he
  rcases mem_append_to_key _ _ _ e he with h1 | ⟨e0, he0, hk0, rfl⟩
  · exact hacc2 e h1
  · have he0' := hacc2 e0 he0
    refine ⟨?_, he0'.2.1, he0'.2.2⟩
    intro x hx
    rcases List.mem_append.mp hx with h2 | h2
    · exact he0'.1 x h2
    · have hx' : x = m := by simpa using h2
      subst hx'
      exact hk0.symm

theorem entry_invariant_foldl_aux (cfg : Config) :
    ∀ (fs : List FileMetadata) (acc : List (GroupKey × FolderOrganization)),
      (∀ e ∈ acc, (∀ x ∈ e.2.files, key_of cfg x = e.1) ∧
        e.2.category = e.1.1 ∧
        e.2.suggested_folder_name =
          sanitize_folder_name (plan_folder_name e.1.1 (optOfKey e.1.2))) →
      ∀ e ∈ fs.foldl (add_file cfg) acc,
        (∀ x ∈ e.2.files, key_of cfg x = e.1) ∧
        e.2.category = e.1.1 ∧
        e.2.suggested_folder_name =
          sanitize_folder_name (plan_folder_name e.1.1 (optOfKey e.1.2))
  | [], _, hacc => hacc
  | m :: fs, acc, hacc =>
    entry_invariant_foldl_aux cfg fs (add_file cfg acc m)
      (entry_invariant_step cfg acc m hacc)

theorem entry_invariant_foldl (cfg : Config) (files : List FileMetadata) :
    ∀ e ∈ files.foldl (add_file cfg) [],
      (∀ x ∈ e.2.files, key_of cfg x = e.1) ∧
      e.2.category = e.1.1 ∧
      e.2.suggested_folder_name =
        sanitize_folder_name (plan_folder_name e.1.1 (optOfKey e.1.2)) :=
  entry_invariant_foldl_aux cfg files []
    (fun e he => absurd he (List.not_mem_nil e))

theorem keys_nodup_step (cfg : Config)
    (acc : List (GroupKey × FolderOrganization)) (m : FileMetadata)
    (h : (acc.map Prod.fst).Nodup) :
    ((add_file cfg acc m).map Prod.fst).Nodup := by
  unfold add_file
  rw [append_to_key_keys]
  by_cases hk : key_of cfg m ∈ acc.map Prod.fst
  · rw [if_pos hk]; exact h
  · rw [if_neg hk, List.map_append]
    refine List.Nodup.append h (List.nodup_singleton _) ?_
    intro a ha hb
    have ha' : a = key_of cfg m := by simpa using hb
    subst ha'
    exact hk ha

theorem keys_nodup_foldl_aux (cfg : Config) :
    ∀ (fs : List FileMetadata) (acc : List (GroupKey × FolderOrganization)),
      (acc.map Prod.fst).Nodup → ((fs.foldl (add_file cfg) acc).map Prod.fst).Nodup
  | [], _, h => h
  | m :: fs, acc, h =>
    keys_nodup_foldl_aux cfg fs (add_file cfg acc m) (keys_nodup_step cfg acc m h)

theorem eq_of_fst_eq_of_nodup {α β : Type _} :
    ∀ (l : List (α × β)), (l.map Prod.fst).Nodup →
      ∀ e1 ∈ l, ∀ e2 ∈ l, e1.1 = e2.1 → e1 = e2
  | [], _, e1, h1, _, _, _ => absurd h1 (List.not_mem_nil e1)
  | a :: rest, hnd, e1, h1, e2, h2, hk => by
    rw [List.map_cons] at hnd
    have hhead := (List.nodup_cons.mp hnd).1
    have htail := (List.nodup_cons.mp hnd).2
    rcases List.mem_cons.mp h1 with rfl | h1'
    · rcases List.mem_cons.mp h2 with rfl | h2'
      · rfl
      · exact absurd (by rw [hk]; exact List.mem_map_of_mem Prod.fst h2') hhead
    · rcases List.mem_cons.mp h2 with rfl | h2'
      · exact absurd (by rw [← hk]; exact List.mem_map_of_mem Prod.fst h1') hhead
      · exact eq_of_fst_eq_of_nodup rest htail e1 h1' e2 h2' hk

theorem exists_plan_of_mem (cfg : Config) (files : List FileMetadata)
    (m : FileMetadata) (hm : m ∈ files) :
    ∃ p, p ∈ organize_by_category cfg files ∧ m ∈ p.files := by
  have h1 : m ∈ plans_files (grouped_plans cfg files) :=
    ((grouped_plans_perm cfg files).mem_iff).mpr hm
  unfold plans_files at h1
  obtain ⟨l, hl, hml⟩ := List.mem_flatten.mp h1
  obtain ⟨p, hp, rfl⟩ := List.mem_map.mp hl
  exact ⟨p, ((organize_perm_grouped cfg files).mem_iff).mpr hp, hml⟩

theorem plan_unique_of_mem (cfg : Config) (files : List FileMetadata)
    (m : FileMetadata) (p q : FolderOrganization)
    (hp : p ∈ organize_by_category cfg files)
    (hq : q ∈ organize_by_category cfg files)
    (hmp : m ∈ p.files) (hmq : m ∈ q.files) : p = q := by
  have hp' : p ∈ grouped_plans cfg files :=
    ((organize_perm_grouped cfg files).mem_iff).mp hp
  have hq' : q ∈ grouped_plans cfg files :=
    ((organize_perm_grouped cfg files).mem_iff).mp hq
  unfold grouped_plans at hp' hq'
  obtain ⟨ep, hep, rfl⟩ := List.mem_map.mp hp'
  obtain ⟨eq0, heq0, rfl⟩ := List.mem_map.mp hq'
  have hkp := (entry_invariant_foldl cfg files ep hep).1 m hmp
  have hkq := (entry_invariant_foldl cfg files eq0 heq0).1 m hmq
  have hnd := keys_nodup_foldl_aux cfg files [] (by simp)
  have heq := eq_of_fst_eq_of_nodup _ hnd ep hep eq0 heq0 (hkp.symm.trans hkq)
  rw [heq]

end MCPFolder

namespace MCPFolder

open List

theorem filter_orderedInsert_pos {α : Type _} (r : α → α → Prop) [DecidableRel r]
    (q : α → Bool) (a : α) (ha : q a = true)
    (h : ∀ b, ¬ r a b → q b = false) :
    ∀ l : List α, (List.orderedInsert r a l).filter q = a :: l.filter q
  | [] => by simp [List.orderedInsert, ha]
  | b :: l => by
    by_cases hr : r a b
    · rw [List.orderedInsert, if_pos hr]
      simp [List.filter_cons, ha]
    · have hqb := h b hr
      rw [List.orderedInsert, if_neg hr]
      simp [List.filter_cons, hqb, filter_orderedInsert_pos r q a ha h l]

theorem filter_orderedInsert_neg {α : Type _} (r : α → α → Prop) [DecidableRel r]
    (q : α → Bool) (a : α) (ha : q a = false) :
    ∀ l : List α, (List.orderedInsert r a l).filter q = l.filter q
  | [] => by simp [List.orderedInsert, ha]
  | b :: l => by
    by_cases hr : r a b
    · rw [List.orderedInsert, if_pos hr]
      simp [List.filter_cons, ha]
    · rw [List.orderedInsert, if_neg hr]
      simp [List.filter_cons, filter_orderedInsert_neg r q a ha l]

theorem filter_insertionSort_eq {α : Type _} (r : α → α → Prop) [DecidableRel r]
    (q : α → Bool) (hq : ∀ a b, q a = true → q b = true → r a b) :
    ∀ l : List α, (List.insertionSort r l).filter q = l.filter q
  | [] => rfl
  | x :: l => by
    rw [List.insertionSort]
    by_cases hx : q x = true
    · rw [filter_orderedInsert_pos r q x hx (fun b hrb => by
        cases hqb2 : q b with
        | false => rfl
        | true => exact absurd (hq x b hx hqb2) hrb)]
      rw [filter_insertionSort_eq r q hq l]
      simp [List.filter_cons, hx]
    · have hx' : q x = false := by
        cases hqx2 : q x with
        | false => rfl
        | true => exact absurd hqx2 hx
      rw [filter_orderedInsert_neg r q x hx', filter_insertionSort_eq r q hq l]
      simp [List.filter_cons, hx']

/-- C9: the plan list returned by grouping is sorted by non-increasing member
count; it is a permutation of the insertion-ordered (first-seen) grouped
plans; and the sort is stable — for every count value, the plans holding that
count appear in exactly their first-seen order. -/
theorem plans_sorted_desc_stable (cfg : Config) (files : List FileMetadata) :
    List.Pairwise (fun p q => q.files.length ≤ p.files.length)
        (organize_by_category cfg files) ∧
      organize_by_category cfg files ~ grouped_plans cfg files ∧
      ∀ n, (organize_by_category cfg files).filter (fun p => p.files.length == n) =
        (grouped_plans cfg files).filter (fun p => p.files.length == n) := by
  refine ⟨?_, organize_perm_grouped cfg files, ?_⟩
  · exact List.sorted_insertionSort plan_count_ge (grouped_plans cfg files)
  · intro n
    apply filter_insertionSort_eq
    intro a b ha hb
    have ha' : a.files.length = n := by simpa using ha
    have hb' : b.files.length = n := by simpa using hb
    unfold plan_count_ge
    rw [ha', hb']

/-- C5: grouping is a partition — the plan member counts sum to the number of
grouped files, every file lands in exactly one plan, and in every successful
`analyze_folder` result the plan member counts sum to the reported
`total_files`. -/
theorem organize_by_category_partition (cfg : Config) (files : List FileMetadata) :
    ((organize_by_category cfg files).map (fun p => p.files.length)).sum = files.length ∧
      (∀ m ∈ files, ∃ p, p ∈ organize_by_category cfg files ∧ m ∈ p.files ∧
        ∀ q, q ∈ organize_by_category cfg files → m ∈ q.files → q = p) ∧
      ∀ f r, analyze_folder cfg f = Except.ok r →
        ((r.organized_folders.map (fun p => p.files.length)).sum = r.total_files) := by
  refine ⟨sum_lengths_organized cfg files, ?_, ?_⟩
  · intro m hm
    obtain ⟨p, hp, hmp⟩ := exists_plan_of_mem cfg files m hm
    exact ⟨p, hp, hmp, fun q hq hmq => plan_unique_of_mem cfg files m q p hq hp hmq hmp⟩
  · intro f r h
    unfold analyze_folder at h
    cases hv : validate_path f with
    | error e => rw [hv] at h; cases h
    | ok u =>
      rw [hv] at h
      cases hb : analyze_folder_body cfg f with
      | error e => rw [hb] at h; cases h
      | ok x =>
        rw [hb] at h
        cases h
        unfold analyze_folder_body at hb
        cases hg : get_all_files f with
        | error e => rw [hg] at hb; cases hb
        | ok fl =>
          rw [hg] at hb
          dsimp only at hb
          by_cases he : fl.isEmpty = true
          · rw [if_pos he] at hb
            cases hb
            simp
          · rw [if_neg he] at hb
            cases hb
            exact sum_lengths_organized cfg _

/-- Witness for the C5 theorem: in a one-file analysis the file lands in a
plan of the output. -/
theorem organize_by_category_partition_witness :
    ∃ p, p ∈ organize_by_category cfgNone [analyze_file cfgNone feReport] ∧
      analyze_file cfgNone feReport ∈ p.files := by
  obtain ⟨-, h2, -⟩ :=
    organize_by_category_partition cfgNone [analyze_file cfgNone feReport]
  obtain ⟨p, hp, hm, -⟩ :=
    h2 (analyze_file cfgNone feReport) (List.mem_singleton.mpr rfl)
  exact ⟨p, hp, hm⟩

/-- C3 counterexample: with an oracle supplying subcategory `Python` for
`script.py`, the produced plan's folder name is `Code_Python` — the
sanitizer replaces the `/` separator itself — not the claimed two-level path
`Code/Python`. -/
theorem folder_name_not_two_level :
    (organize_by_category cfgSub [analyze_file cfgSub feScript]).map
        (fun p => p.suggested_folder_name) = [(r"Code_Python").data] ∧
      ((r"Code_Python").data : Name) ≠ (r"Code/Python").data := by
  refine ⟨by decide, by decide⟩

/-- C3 (amended): every produced plan's suggested folder name is the
sanitization of the whole string `category ++ "/" ++ subcategory` when the
file's detected subcategory is present (so the separator is replaced by `_`),
and of the category alone otherwise; consequently the name never contains a
`/` (or any other reserved character). -/
theorem plan_folder_name_sanitizes_whole_path (cfg : Config) (files : List FileMetadata) :
    ∀ p ∈ organize_by_category cfg files,
      (∀ m ∈ p.files, p.category = m.suggested_category ∧
        p.suggested_folder_name =
          sanitize_folder_name
            (plan_folder_name m.suggested_category (detect_subcategory cfg m))) ∧
      ∀ c ∈ p.suggested_folder_name, c ∉ invalidChars := by
  intro p hp
  have hp' : p ∈ grouped_plans cfg files :=
    ((organize_perm_grouped cfg files).mem_iff).mp hp
  unfold grouped_plans at hp'
  obtain ⟨e, he, rfl⟩ := List.mem_map.mp hp'
  have hinv := entry_invariant_foldl cfg files e he
  constructor
  · intro m hm
    have hkey := hinv.1 m hm
    constructor
    · rw [hinv.2.1, ← hkey]
      rfl
    · rw [hinv.2.2, ← hkey,
        show (key_of cfg m).1 = m.suggested_category from rfl,
        show (key_of cfg m).2 = (detect_subcategory cfg m).getD [] from rfl,
        detect_eq_optOfKey]
  · intro c hc
    rw [hinv.2.2] at hc
    exact mem_sanitize_not_invalid hc

/-- Witness for the amended C3 theorem: the `Code`/`Python` plan's name is the
sanitization of the combined `category/subcategory` string. -/
theorem plan_folder_name_sanitizes_whole_path_witness :
    ∃ p, p ∈ organize_by_category cfgSub [analyze_file cfgSub feScript] ∧
      p.suggested_folder_name =
        sanitize_folder_name (plan_folder_name
          (analyze_file cfgSub feScript).suggested_category
          (detect_subcategory cfgSub (analyze_file cfgSub feScript))) := by
  obtain ⟨p, hp, hmp⟩ :=
    exists_plan_of_mem cfgSub [analyze_file cfgSub feScript]
      (analyze_file cfgSub feScript) (List.mem_singleton.mpr rfl)
  have h :=
    (plan_folder_name_sanitizes_whole_path cfgSub [analyze_file cfgSub feScript] p hp).1
      (analyze_file cfgSub feScript) hmp
  exact ⟨p, hp, h.2⟩

end MCPFolder

namespace MCPFolder

open List

theorem join_path_is_prefixed (d mm : Name) :
    ((d ++ ['/']).isPrefixOf (join_path d mm)) = true := by
  rw [List.isPrefixOf_iff_prefix]
  exact ⟨mm, by simp [join_path]⟩

theorem not_dest_shaped {d x : Name}
    (h : ((d ++ ['/']).isPrefixOf x) = false) : ∀ mm, x ≠ join_path d mm := by
  intro mm hc
  rw [hc, join_path_is_prefixed] at h
  cases h

theorem join_path_inj {d a b : Name} (h : join_path d a = join_path d b) : a = b := by
  unfold join_path at h
  have h2 := List.append_cancel_left h
  injection h2

theorem find_free_name_spec (ex : List Name) (d nm : Name) :
    ∀ (fuel k0 : Nat) (f : Name),
      find_free_name ex d nm fuel k0 = some f →
      ∃ k, k0 ≤ k ∧ f = suffixed_name nm k ∧
        join_path d (suffixed_name nm k) ∉ ex ∧
        ∀ j, k0 ≤ j → j < k → join_path d (suffixed_name nm j) ∈ ex
  | 0, k0, f => by intro h; simp [find_free_name] at h
  | fuel + 1, k0, f => by
    intro h
    unfold find_free_name at h
    by_cases hmem : join_path d (suffixed_name nm k0) ∈ ex
    · rw [if_pos hmem] at h
      obtain ⟨k, hk1, hk2, hk3, hk4⟩ := find_free_name_spec ex d nm fuel (k0 + 1) f h
      refine ⟨k, by omega, hk2, hk3, ?_⟩
      intro j hj1 hj2
      by_cases hj : j = k0
      · subst hj; exact hmem
      · exact hk4 j (by omega) hj2
    · rw [if_neg hmem] at h
      cases h
      exact ⟨k0, le_refl k0, rfl, hmem, fun j hj1 hj2 => absurd hj2 (not_lt.mpr hj1)⟩

theorem move_file_spec (ex : List Name) (src d nm : Name) (ex2 : List Name) (f : Name)
    (h : move_file ex src d nm = some (ex2, f)) :
    join_path d f ∉ ex ∧ ex2 = (ex.erase src) ++ [join_path d f] ∧
      collision_choice ex d nm f := by
  unfold move_file at h
  by_cases hmem : join_path d nm ∈ ex
  · rw [if_pos hmem] at h
    cases hf : find_free_name ex d nm (ex.length + 1) 1 with
    | none => rw [hf] at h; cases h
    | some nm2 =>
      rw [hf] at h
      cases h
      obtain ⟨k, hk1, hk2, hk3, hk4⟩ := find_free_name_spec ex d nm _ 1 _ hf
      subst hk2
      exact ⟨hk3, rfl, Or.inr ⟨hmem, k, hk1, rfl, hk3, hk4⟩⟩
  · rw [if_neg hmem] at h
    cases h
    exact ⟨hmem, rfl, Or.inl ⟨hmem, rfl⟩⟩

theorem move_all_mem_persist (d : Name) :
    ∀ (moves : List (Name × Name)) (ex ex2 : List Name) (finals : List Name),
      move_all d ex moves = some (ex2, finals) →
      (∀ p ∈ moves, ((d ++ ['/']).isPrefixOf p.1) = false) →
      ∀ x, x ∈ ex → (∃ mm, x = join_path d mm) → x ∈ ex2
  | [], ex, ex2, finals => by
    intro h _ x hx _
    unfold move_all at h
    cases h
    exact hx
  | (src, nm) :: rest, ex, ex2, finals => by
    intro h hpre x hx hshape
    unfold move_all at h
    cases hm : move_file ex src d nm with
    | none => rw [hm] at h; cases h
    | some exf =>
      obtain ⟨ex1, f1⟩ := exf
      rw [hm] at h
      dsimp only at h
      cases hrest : move_all d ex1 rest with
      | none => rw [hrest] at h; cases h
      | some exfin =>
        obtain ⟨ex3, fins⟩ := exfin
        rw [hrest] at h
        dsimp only at h
        cases h
        have hspec := move_file_spec ex src d nm ex1 f1 hm
        have hxsrc : x ≠ src := by
          obtain ⟨mm, rfl⟩ := hshape
          exact fun hc =>
            (not_dest_shaped (hpre (src, nm) (List.mem_cons_self _ _)) mm) hc.symm
        have hx1 : x ∈ ex1 := by
          rw [hspec.2.1]
          exact List.mem_append_left _ ((List.mem_erase_of_ne hxsrc).mpr hx)
        exact move_all_mem_persist d rest ex1 _ _ hrest
          (fun p hp => hpre p (List.mem_cons_of_mem _ hp)) x hx1 hshape

theorem move_all_absent_persist (d : Name) :
    ∀ (moves : List (Name × Name)) (ex ex2 : List Name) (finals : List Name),
      move_all d ex moves = some (ex2, finals) →
      ∀ x, x ∉ ex → ((d ++ ['/']).isPrefixOf x) = false → x ∉ ex2
  | [], ex, ex2, finals => by
    intro h x hx _
    unfold move_all at h
    cases h
    exact hx
  | (src, nm) :: rest, ex, ex2, finals => by
    intro h x hx hxpre
    unfold move_all at h
    cases hm : move_file ex src d nm with
    | none => rw [hm] at h; cases h
    | some exf =>
      obtain ⟨ex1, f1⟩ := exf
      rw [hm] at h
      dsimp only at h
      cases hrest : move_all d ex1 rest with
      | none => rw [hrest] at h; cases h
      | some exfin =>
        obtain ⟨ex3, fins⟩ := exfin
        rw [hrest] at h
        dsimp only at h
        cases h
        have hspec := move_file_spec ex src d nm ex1 f1 hm
        have hx1 : x ∉ ex1 := by
          rw [hspec.2.1]
          intro hc
          rcases List.mem_append.mp hc with h2 | h2
          · exact hx (List.mem_of_mem_erase h2)
          · have : x = join_path d f1 := by simpa using h2
            exact (not_dest_shaped hxpre f1) this
        exact move_all_absent_persist d rest ex1 _ _ hrest x hx1 hxpre

theorem move_all_spec (d : Name) :
    ∀ (moves : List (Name × Name)) (ex ex2 : List Name) (finals : List Name),
      move_all d ex moves = some (ex2, finals) →
      ex.Nodup →
      (∀ p ∈ moves, ((d ++ ['/']).isPrefixOf p.1) = false) →
      ((moves.map Prod.fst).Nodup) →
      finals.Nodup ∧ (∀ f ∈ finals, join_path d f ∈ ex2) ∧
        (∀ f ∈ finals, join_path d f ∉ ex) ∧
        (∀ p ∈ moves, p.1 ∉ ex2) ∧ ex2.Nodup
  | [], ex, ex2, finals => by
    intro h hnd _ _
    unfold move_all at h
    cases h
    exact ⟨List.nodup_nil, fun f hf => absurd hf (List.not_mem_nil f),
      fun f hf => absurd hf (List.not_mem_nil f),
      fun p hp => absurd hp (List.not_mem_nil p), hnd⟩
  | (src, nm) :: rest, ex, ex2, finals => by
    intro h hnd hpre hsrc
    unfold move_all at h
    cases hm : move_file ex src d nm with
    | none => rw [hm] at h; cases h
    | some exf =>
      obtain ⟨ex1, f1⟩ := exf
      rw [hm] at h
      dsimp only at h
      cases hrest : move_all d ex1 rest with
      | none => rw [hrest] at h; cases h
      | some exfin =>
        obtain ⟨ex3, fins⟩ := exfin
        rw [hrest] at h
        dsimp only at h
        cases h
        have hspec := move_file_spec ex src d nm ex1 f1 hm
        have hdest_not := hspec.1
        have hex1 : ex1 = (ex.erase src) ++ [join_path d f1] := hspec.2.1
        have hpre' : ∀ p ∈ rest, ((d ++ ['/']).isPrefixOf p.1) = false :=
          fun p hp => hpre p (List.mem_cons_of_mem _ hp)
        have hex1nd : ex1.Nodup := by
          rw [hex1]
          refine List.Nodup.append (hnd.erase src) (List.nodup_singleton _) ?_
          intro a ha hb
          have ha2 : a = join_path d f1 := by simpa using hb
          subst ha2
          exact hdest_not (List.mem_of_mem_erase ha)
        have hsrc' : (rest.map Prod.fst).Nodup := by
          rw [List.map_cons] at hsrc
          exact (List.nodup_cons.mp hsrc).2
        obtain ⟨ihA, ihB, ihB', ihC, ihD⟩ :=
          move_all_spec d rest ex1 _ _ hrest hex1nd hpre' hsrc'
        have hdest_in_ex1 : join_path d f1 ∈ ex1 := by
          rw [hex1]
          exact List.mem_append_right _ (List.mem_singleton.mpr rfl)
        refine ⟨?_, ?_, ?_, ?_, ihD⟩
        · refine List.nodup_cons.mpr ⟨?_, ihA⟩
          intro hf1
          exact (ihB' f1 hf1) hdest_in_ex1
        · intro f hf
          rcases List.mem_cons.mp hf with rfl | hf'
          · exact move_all_mem_persist d rest ex1 _ _ hrest hpre'
              (join_path d f) hdest_in_ex1 ⟨f, rfl⟩
          · exact ihB f hf'
        · intro f hf
          rcases List.mem_cons.mp hf with rfl | hf'
          · exact hdest_not
          · intro hc
            have hfsrc : join_path d f ≠ src :=
              fun hc2 =>
                (not_dest_shaped (hpre (src, nm) (List.mem_cons_self _ _)) f) hc2.symm
            have : join_path d f ∈ ex1 := by
              rw [hex1]
              exact List.mem_append_left _ ((List.mem_erase_of_ne hfsrc).mpr hc)
            exact (ihB' f hf') this
        · intro p hp
          rcases List.mem_cons.mp hp with rfl | hp'
          · have hsrc_not1 : src ∉ ex1 := by
              rw [hex1]
              intro hc
              rcases List.mem_append.mp hc with h2 | h2
              · exact ((hnd.mem_erase_iff).mp h2).1 rfl
              · have h3 : src = join_path d f1 := by simpa using h2
                exact (not_dest_shaped (hpre (src, nm) (List.mem_cons_self _ _)) f1) h3
            exact move_all_absent_persist d rest ex1 _ _ hrest src hsrc_not1
              (hpre (src, nm) (List.mem_cons_self _ _))
          · exact ihC p hp'

/-- C6: when `organize` moves a batch of files into one destination folder via
`_move_file` (sources pairwise distinct, none of them a path inside the
destination folder, and the path set duplicate-free), the files receive
pairwise distinct final names and each moved file exists at its final
destination, with every source path absent afterwards; and each individual
move keeps the suggested name unchanged when its destination is free,
otherwise picks the smallest unused `_1, _2, ...` suffix, inserted before the
extension. -/
theorem move_files_collision_safe :
    (∀ (d : Name) (moves : List (Name × Name)) (ex ex2 : List Name)
        (finals : List Name),
      move_all d ex moves = some (ex2, finals) →
      ex.Nodup →
      (∀ p ∈ moves, ((d ++ ['/']).isPrefixOf p.1) = false) →
      ((moves.map Prod.fst).Nodup) →
      finals.Nodup ∧ (∀ f ∈ finals, join_path d f ∈ ex2) ∧
        ∀ p ∈ moves, p.1 ∉ ex2) ∧
    ∀ (ex : List Name) (src d nm : Name) (ex2 : List Name) (f : Name),
      move_file ex src d nm = some (ex2, f) → collision_choice ex d nm f := by
  constructor
  · intro d moves ex ex2 finals h h1 h2 h3
    obtain ⟨a, b, -, c, -⟩ := move_all_spec d moves ex ex2 finals h h1 h2 h3
    exact ⟨a, b, c⟩
  · intro ex src d nm ex2 f h
    exact (move_file_spec ex src d nm ex2 f h).2.2

theorem move_all_colliding_eval :
    move_all dstFolder fs0 collidingMoves =
      some ([join_path dstFolder ((r"report.txt").data),
             join_path dstFolder ((r"report_1.txt").data)],
            [(r"report.txt").data, (r"report_1.txt").data]) := by
  decide

theorem fs0_nodup : fs0.Nodup := by decide

theorem colliding_sources_not_in_dst :
    ∀ p ∈ collidingMoves, ((dstFolder ++ ['/']).isPrefixOf p.1) = false := by
  decide

theorem colliding_sources_nodup : (collidingMoves.map Prod.fst).Nodup := by
  decide

/-- Witness for the C6 theorem: two files suggested as `report.txt` moved into
`dst` end up as `report.txt` and `report_1.txt`, both present, sources gone. -/
theorem move_files_collision_safe_witness :
    ∃ ex2 finals, move_all dstFolder fs0 collidingMoves = some (ex2, finals) ∧
      finals.Nodup ∧ (∀ f ∈ finals, join_path dstFolder f ∈ ex2) ∧
      ∀ p ∈ collidingMoves, p.1 ∉ ex2 := by
  obtain ⟨a, b, c⟩ := (move_files_collision_safe).1 dstFolder collidingMoves fs0
    ([join_path dstFolder ((r"report.txt").data),
      join_path dstFolder ((r"report_1.txt").data)])
    ([(r"report.txt").data, (r"report_1.txt").data]) move_all_colliding_eval
    fs0_nodup colliding_sources_not_in_dst colliding_sources_nodup
  exact ⟨_, _, move_all_colliding_eval, a, b, c⟩

end MCPFolder
